import Mathlib

/-!
Verification of the mrdox documentation-generator core: the Result/Error
system (`include/mrdox/Support/Error.hpp`), the Dom value model
(`source/Support/Dom.cpp`), the safe-name assignment and the corpus
traversal and bitcode emission engine (`BitcodeGenerator.cpp`, under the
source tree's `-bitcode` directory),
shallowly embedded in Lean.  Machine strings are Lean `String`s, symbol
identifiers are `Nat`, per-symbol I/O outcomes are explicit parameters of
the embedding.
-/

namespace Mrdox

/-! ## Result/Error system — `include/mrdox/Support/Error.hpp` -/

/-- The `Error` value: `message_` carries the description of the failure.
The source also stores `reason_` and a `source_location`, which are
diagnostic only; `failed()`, equality and aggregation are defined on
`message_` alone, so the embedding keeps just the message. -/
structure Error where
  message : String
deriving Repr, DecidableEq

/-- `Error::failed() const` — `return ! message_.empty();` (Error.hpp:116-120). -/
def Error.failed (e : Error) : Bool :=
  !e.message.isEmpty

/-- `Error::success()` — `return Error();`: a default-constructed error, with
an empty message (Error.hpp:391-397). -/
def Error.success : Error :=
  { message := "" }

/-- Modelled from the spec: the body of the aggregating constructor
`Error(std::vector<Error> const&, source_location)` lives in `Error.cpp`,
which is not among the repository files under `src/`.  The header's doc
comment (Error.hpp:101-108) gives the success condition — an empty list, or
a list of successes, yields success — and spec §4.1 adds that otherwise the
message is the concatenation of all non-empty constituent messages with a
separator keeping each distinguishable; a newline stands for that
separator here. -/
def joinMessages : List String → String
  | [] => ""
  | m :: ms => if m.isEmpty then joinMessages ms else m ++ "\n" ++ joinMessages ms

/-- Modelled from the spec: `Error(std::vector<Error> const&)`, see
`joinMessages`. -/
def Error.ofList (errors : List Error) : Error :=
  { message := joinMessages (errors.map Error.message) }

/-- The needle's characters occur contiguously inside the haystack: the
substring relation the spec's aggregation property speaks of. -/
def strContains (needle hay : String) : Prop :=
  ∃ pre post : List Char, hay.data = pre ++ needle.data ++ post

/-! ## Expected — `include/mrdox/Support/Error.hpp:267-342, 423-668`

`Expected<T>` is a union of a live `T v_` or a live `Error e_`,
discriminated by `has_error_`; the embedding is the corresponding sum.
An operation that can `Throw()` is modelled in `Except Error`: a
`.error` result is the unwind, an `.ok` result is a normal return. -/

inductive Expected (T : Type) where
  | val (v : T)
  | err (e : Error)
deriving Repr

/-- `Expected<T>::has_error()` — `return has_error_;` (Error.hpp:510-517). -/
def Expected.has_error : Expected T → Bool
  | .val _ => false
  | .err _ => true

/-- `Expected<T>::has_value()` — `return ! has_error_;` (Error.hpp:501-508). -/
def Expected.has_value (x : Expected T) : Bool :=
  !x.has_error

/-- `Expected<T>::value() &` — `if(has_value()) return v_; e_.Throw();`
(Error.hpp:527-536): checked access, raising the stored error on the
error state. -/
def Expected.value : Expected T → Except Error T
  | .val v => .ok v
  | .err e => .error e

/-- `Expected<T>::release()` — `return std::move(value());`
(Error.hpp:558-565): moves the value out through `value()&`.  The
container itself is left untouched: `has_error_` stays `false` and `v_`
holds a moved-from object.  `mv` is the effect of `T`'s move constructor on
the moved-from source (any valid-but-unspecified value); the result pairs
the released value with the container's subsequent state. -/
def Expected.release (mv : T → T) : Expected T → Except Error (T × Expected T)
  | .val v => .ok (v, .val (mv v))
  | .err e => .error e

/-- `Expected<T>::error() const& noexcept` — `if(has_error()) return e_;
return Error::success();` (Error.hpp:626-634).  Total: `noexcept`, never
raises. -/
def Expected.errorOf : Expected T → Error
  | .err e => e
  | .val _ => Error.success

/-! ## Dom value model — `source/Support/Dom.cpp` -/

/-- The backing implementation of a `dom::Object`: only its `empty()`
capability matters here.  `emptyImpl = none` is an implementation that does
not override the virtual `Object::Impl::empty()`. -/
structure ObjectImpl where
  emptyImpl : Option Bool
deriving Repr, DecidableEq

/-- `dom::Object::Impl::empty()` — the virtual member's default returns `false`
(Dom.cpp:25-32, "// default to false"); an override supplies its own
answer. -/
def ObjectImpl.empty (o : ObjectImpl) : Bool :=
  o.emptyImpl.getD false

/-- The backing implementation of a `dom::Array`: only `length()` matters
for truthiness. -/
structure ArrayImpl where
  length : Nat
deriving Repr, DecidableEq

/-- `dom::Value`: the tagged union over `kind_` with the members
`object_`, `array_`, `string_`, `number_` (Dom.hpp / Dom.cpp:34-114).
A `bool` constructor argument is stored into the integer member
`number_` (Dom.cpp:64-69); `boolToNumber` is that conversion. -/
inductive Value where
  | null
  | boolean (b : Bool)
  | integer (n : Int)
  | string (s : String)
  | array (a : ArrayImpl)
  | object (o : ObjectImpl)
deriving Repr

/-- The `int64_t number_` that `Value(bool b)` stores (Dom.cpp:64-69). -/
def boolToNumber (b : Bool) : Int :=
  if b then 1 else 0

/-- `dom::Value::isTruthy()` (Dom.cpp:116-130), arm by arm:
`Object → object_.empty()`, `Array → array_.length() > 0`,
`String → string_.size() > 0`, `Integer`/`Boolean → number_ != 0`,
`Null → false`. -/
def Value.isTruthy : Value → Bool
  | .object o => o.empty
  | .array a => decide (a.length > 0)
  | .string s => decide (s.length > 0)
  | .integer n => n != 0
  | .boolean b => boolToNumber b != 0
  | .null => false

/-! ## Corpus model — spec §3 "Symbol record", §6

Modelled from the spec: the `Corpus`, `Info` and `Corpus::traverse`
definitions are not among the repository files under `src/` (only their
callers in `BitcodeGenerator.cpp` are).  Per spec §3/§6 a symbol record
has a stable identifier, a name and the ordered member records it owns;
the symbol graph is a tree.  `Forest` is the ordered list of an owner's
members (a mutual inductive, so that the traversal computes by
definitional reduction). -/

mutual
inductive Info : Type where
  | mk (id : Nat) (name : String) (members : Forest)
inductive Forest : Type where
  | nil
  | cons (head : Info) (tail : Forest)
end

/-- The symbol's stable identifier (`I.id` in the source). -/
def Info.id : Info → Nat
  | .mk i _ _ => i

/-- The symbol's declared name, the input to safe-name assignment. -/
def Info.name : Info → String
  | .mk _ nm _ => nm

/-- The ordered members the symbol owns. -/
def Info.members : Info → Forest
  | .mk _ _ ms => ms

mutual
/-- Modelled from the spec: the visit of one symbol under the traversal
`corpus_.traverse(...)` drives (spec §4.4) — `Start → VisitSymbol(s) →
[members, recursively] → Done`: the symbol itself, then its members
depth-first.  The result is the visit order. -/
def visitInfo : Info → List Info
  | .mk i nm ms => .mk i nm ms :: visitForest ms
/-- Modelled from the spec: the traversal of a member list, begun at the
corpus root's member list (spec §4.4); see `visitInfo`. -/
def visitForest : Forest → List Info
  | .nil => []
  | .cons t ts => visitInfo t ++ visitForest ts
end

/-- A symbol reachable from a member list: one of its symbols, or a symbol
reachable from a member's own members (spec §4.4: the reachable symbols of
the tree). -/
inductive Reachable : Forest → Info → Prop where
  | head (t : Info) (ts : Forest) : Reachable (.cons t ts) t
  | tail (t x : Info) (ts : Forest) : Reachable ts x → Reachable (.cons t ts) x
  | child (t x : Info) (ts : Forest) : Reachable t.members x → Reachable (.cons t ts) x

/-! ## Safe name assignment — spec §4.3

Modelled from the spec: `SafeNames` (`Support/SafeNames.hpp/.cpp`) is not
among the repository files under `src/`; `BitcodeGenerator.cpp:62` only
calls `names_.get(I.id)`.  Per spec §4.3 the assigner maps every symbol to
a name unique across the whole corpus, resolving collisions
deterministically by appending a disambiguating suffix; symbols are
processed in the (deterministic) traversal order, and the suffix is here a
run of underscores grown until the candidate is fresh. -/

/-- The candidate name with `k` disambiguating suffix characters. -/
def withSuffix (base : String) (k : Nat) : String :=
  base ++ String.mk (List.replicate k '_')

/-- The suffix lengths in `0..used.length` whose candidate is not yet
taken.  Nonempty by pigeonhole: the candidates are pairwise distinct. -/
def freeCandidates (base : String) (used : List String) : List Nat :=
  (List.range (used.length + 1)).filter (fun k => !(used.contains (withSuffix base k)))

/-- The first fresh candidate for `base` against the taken names. -/
def nextFree (base : String) (used : List String) : String :=
  withSuffix base ((freeCandidates base used).headD 0)

/-- Assign names in visit order, remembering the taken names. -/
def assignLoop : List Info → List String → List (Nat × String)
  | [], _ => []
  | t :: ts, used =>
    let nm := nextFree t.name used
    (t.id, nm) :: assignLoop ts (nm :: used)

/-- The corpus's identifier-to-name assignment (`SafeNames names_`). -/
def SafeNames.assign (corpus : Forest) : List (Nat × String) :=
  assignLoop (visitForest corpus) []

/-- First-match lookup in an assignment list. -/
def findName : List (Nat × String) → Nat → String
  | [], _ => ""
  | (i, nm) :: rest, j => if i = j then nm else findName rest j

/-- `names_.get(I.id)` (BitcodeGenerator.cpp:62): the name assigned to a
symbol identifier. -/
def SafeNames.get (corpus : Forest) (i : Nat) : String :=
  findName (SafeNames.assign corpus) i

/-! ## Multi-artifact build — `BitcodeGenerator.cpp:23-84, 122-129` -/

/-- The I/O behaviour of one build: whether the open (`raw_fd_ostream`
construction, BitcodeGenerator.cpp:66-71) and the write check
(`os.error()`, BitcodeGenerator.cpp:73-77) of a symbol's task fail, and
the `std::error_code` messages reported in each case. -/
structure IOEnv where
  openFails : Nat → Bool
  writeFails : Nat → Bool
  openEcMessage : String
  writeEcMessage : String

/-- The artifact path of a named symbol (BitcodeGenerator.cpp:61-64):
`filePath = outputPath`, `path::append(filePath, name)`,
`filePath.append(".bc")`. -/
def targetPath (outputPath : String) (nm : String) : String :=
  outputPath ++ "/" ++ nm ++ ".bc"

/-- What one per-symbol task leaves behind: a reported `Error`, or a fully
written artifact at its path. -/
inductive TaskResult where
  | reported (e : Error)
  | wrote (path : String)

/-- Whether the symbol's task fails one of its two checked I/O steps. -/
def taskFails (env : IOEnv) (I : Info) : Bool :=
  env.openFails I.id || env.writeFails I.id

/-- The task body `MultiFileBuilder::operator()` submits
(BitcodeGenerator.cpp:58-79): resolve the safe name, build the path, and
on an open failure report `Could not open "<path>" because <ec>` and
return; after encoding, on a stream error report `Could not write
"<path>" because <ec>` and return; otherwise write the bytes.  The
`reportError(err, fs, args...)` overload (Error.hpp:722-734) formats
`"Could not {} because {}"`. -/
def runTask (env : IOEnv) (outputPath : String) (names : Nat → String) (I : Info) :
    TaskResult :=
  let filePath := targetPath outputPath (names I.id)
  if env.openFails I.id then
    .reported { message := "Could not open \"" ++ filePath ++ "\" because " ++ env.openEcMessage }
  else if env.writeFails I.id then
    .reported { message := "Could not write \"" ++ filePath ++ "\" because " ++ env.writeEcMessage }
  else
    .wrote filePath

/-- The task's reported error, when it reported one. -/
def TaskResult.errPart : TaskResult → Option Error
  | .reported e => some e
  | .wrote _ => none

/-- The task's written artifact path, when it wrote one. -/
def TaskResult.wrotePart : TaskResult → Option String
  | .wrote p => some p
  | .reported _ => none

/-- `MultiFileBuilder::build()` (BitcodeGenerator.cpp:41-50), entered
through `BitcodeGenerator::build` (BitcodeGenerator.cpp:122-129): traverse
the corpus scheduling one task per visited symbol, wait for all of them,
and return `Error(errors)` when any task reported an error, else
`Error::success()`.  Modelled from the spec where the runtime is not under
`src/`: per spec §4.4/§5 every submitted task runs to completion, its
reported failure is retained without stopping sibling work, and the final
wait yields all retained per-task errors.  The second component is the
list of fully written artifact paths the build leaves on disk. -/
def MultiFileBuilder.build (env : IOEnv) (outputPath : String) (corpus : Forest) :
    Error × List String :=
  let results := (visitForest corpus).map (runTask env outputPath (SafeNames.get corpus))
  let errors := results.filterMap TaskResult.errPart
  let written := results.filterMap TaskResult.wrotePart
  (if !errors.isEmpty then Error.ofList errors else Error.success, written)

/-! ## Single-stream build — `BitcodeGenerator.cpp:88-118, 131-138` -/

/-- The device behaviour under a single-stream build: whether the write of
a symbol's encoding fails. -/
structure StreamEnv where
  writeFails : Nat → Bool

/-- A `std::ostream`: the identifiers of the fully appended symbol
encodings, and the stream's failure state. -/
structure OStream where
  chunks : List Nat
  bad : Bool

/-- `os_.write(bc.data.data(), bc.data.size())` (BitcodeGenerator.cpp:114)
with `std::ostream` semantics: a stream already in a failure state ignores
the write; a failing write sets the failure state and appends no complete
encoding; otherwise the encoding is appended. -/
def OStream.write (os : OStream) (env : StreamEnv) (i : Nat) : OStream :=
  if os.bad then os
  else if env.writeFails i then { os with bad := true }
  else { os with chunks := os.chunks ++ [i] }

/-- `SingleFileBuilder::build()` (BitcodeGenerator.cpp:102-117), entered
through `BitcodeGenerator::buildOne` (BitcodeGenerator.cpp:131-138): visit
every symbol in traversal order, writing each encoding to the one stream
— `operator()` checks nothing and `build()` returns `Error::success()`
unconditionally.  Components: the returned `Error`, the final stream, and
the symbols `operator()` processed. -/
def SingleFileBuilder.build (env : StreamEnv) (os : OStream) (corpus : Forest) :
    Error × OStream × List Info :=
  let visited := visitForest corpus
  (Error.success, visited.foldl (fun s I => s.write env I.id) os, visited)

/-! ## Concrete instances used by witnesses and counterexamples -/

/-- A two-symbol corpus whose symbols share the base name `a`: the
assigner must disambiguate them. -/
def sampleCorpus : Forest :=
  .cons (.mk 1 "a" .nil) (.cons (.mk 2 "a" .nil) .nil)

/-- A two-symbol corpus for the single-stream counterexample. -/
def cexCorpus : Forest :=
  .cons (.mk 1 "alpha" .nil) (.cons (.mk 2 "beta" .nil) .nil)

/-- A device on which every symbol's write fails — in particular the first
visited symbol's. -/
def cexStreamEnv : StreamEnv :=
  { writeFails := fun _ => true }

/-- A freshly opened, good output stream. -/
def cexStream : OStream :=
  { chunks := [], bad := false }

/-! ## Helper lemmas -/

theorem string_eq_empty_iff (s : String) : s = "" ↔ s.data = [] := by
  rw [String.ext_iff]

theorem string_length_data (s : String) : s.length = s.data.length := rfl

theorem string_ne_empty_iff (s : String) : s ≠ "" ↔ 0 < s.length := by
  rw [Ne, string_eq_empty_iff, string_length_data]
  exact List.length_pos.symm

theorem error_failed_false_iff (e : Error) : e.failed = false ↔ e.message = "" := by
  simp [Error.failed, String.isEmpty_iff]

theorem error_failed_true_iff (e : Error) : e.failed = true ↔ e.message ≠ "" := by
  simp [Error.failed, ← Bool.not_eq_true, String.isEmpty_iff]

theorem joinMessages_eq_empty_iff (ms : List String) :
    joinMessages ms = "" ↔ ∀ m ∈ ms, m = "" := by
  induction ms with
  | nil => simp [joinMessages]
  | cons m ms ih =>
      by_cases hm : m.isEmpty = true
      · have hm' : m = "" := (String.isEmpty_iff m).mp hm
        subst hm'
        have he : "".isEmpty = true := rfl
        simp [joinMessages, he, ih]
      · have hm' : m ≠ "" := fun h => hm ((String.isEmpty_iff m).mpr h)
        have hne : m ++ "\n" ++ joinMessages ms ≠ "" := by
          intro h
          have := congrArg String.data h
          simp [String.data_append] at this
        simp [joinMessages, hm, hne]
        intro h
        exact absurd h hm'

theorem strContains_joinMessages (ms : List String) (m : String) (h : m ∈ ms) :
    strContains m (joinMessages ms) := by
  induction ms with
  | nil => simp at h
  | cons m' ms ih =>
      by_cases hm' : m'.isEmpty = true
      · rcases List.mem_cons.mp h with h | h
        · subst h
          have hme : m = "" := (String.isEmpty_iff m).mp hm'
          subst hme
          have he : "".isEmpty = true := rfl
          exact ⟨[], (joinMessages ms).data, by simp [joinMessages, he]⟩
        · have := ih h
          simpa [joinMessages, hm'] using this
      · rcases List.mem_cons.mp h with h | h
        · subst h
          refine ⟨[], ("\n" ++ joinMessages ms).data, ?_⟩
          simp [joinMessages, hm', String.data_append, List.append_assoc]
        · obtain ⟨pre, post, hpq⟩ := ih h
          refine ⟨m'.data ++ "\n".data ++ pre, post, ?_⟩
          simp [joinMessages, hm', String.data_append, hpq, List.append_assoc]

/-! ## Claim theorems: Dom value model -/

/-- C5: a Value from a non-empty string, a non-empty array, `true`, or a
non-zero integer is truthy; a Null, empty-string, empty-array, `false`, or
zero Value is falsy — exactly `Value::isTruthy()`'s non-Object arms
(Dom.cpp:116-130). -/
theorem value_isTruthy_primitives :
    (∀ s : String, ((Value.string s).isTruthy = true ↔ s ≠ ""))
  ∧ (∀ a : ArrayImpl, ((Value.array a).isTruthy = true ↔ a.length ≠ 0))
  ∧ (∀ b : Bool, (Value.boolean b).isTruthy = b)
  ∧ (∀ n : Int, ((Value.integer n).isTruthy = true ↔ n ≠ 0))
  ∧ Value.null.isTruthy = false := by
  refine ⟨?_, ?_, ?_, ?_, rfl⟩
  · intro s
    show decide (s.length > 0) = true ↔ s ≠ ""
    rw [decide_eq_true_eq]
    exact (string_ne_empty_iff s).symm
  · intro a
    show decide (a.length > 0) = true ↔ a.length ≠ 0
    rw [decide_eq_true_eq]
    exact Nat.pos_iff_ne_zero
  · intro b
    cases b <;> rfl
  · intro n
    show (n != 0) = true ↔ n ≠ 0
    simp

/-- C2 (the code's actual behaviour, against the claim): the Object arm of
`Value::isTruthy()` returns `object_.empty()` itself (Dom.cpp:122) — so a
Value over an Object whose backing implementation reports non-empty (here
the default implementation, and an explicit `empty() = false` would do the
same) is falsy, and one over an empty Object is truthy: the inverse of the
claimed truth table. -/
theorem value_object_isTruthy_inverted :
    (Value.object { emptyImpl := none }).isTruthy = false
  ∧ (Value.object { emptyImpl := some true }).isTruthy = true
  ∧ ∀ o : ObjectImpl, (Value.object o).isTruthy = o.empty :=
  ⟨rfl, rfl, fun _ => rfl⟩

/-- C10: a backing implementation that does not override `empty()` gets the
default `Object::Impl::empty()`, which returns `false` (Dom.cpp:25-32). -/
theorem objectImpl_default_empty :
    ∀ o : ObjectImpl, o.emptyImpl = none → o.empty = false := by
  intro o h
  simp [ObjectImpl.empty, h]

theorem objectImpl_default_empty_witness :
    (ObjectImpl.mk none).empty = false :=
  objectImpl_default_empty ⟨none⟩ rfl

/-! ## Claim theorems: Expected -/

/-- C9: on an `Expected<T>` holding a value, `error()` does not raise — it
is `noexcept` and total — and returns `Error::success()`, which is not
failed (Error.hpp:596-604, 626-634). -/
theorem expected_error_of_has_value (T : Type) (x : Expected T)
    (h : x.has_value = true) :
    x.errorOf = Error.success ∧ x.errorOf.failed = false := by
  cases x with
  | val v => exact ⟨rfl, rfl⟩
  | err e => simp [Expected.has_value, Expected.has_error] at h

theorem expected_error_of_has_value_witness :
    (Expected.val (0 : Int)).errorOf = Error.success
  ∧ (Expected.val (0 : Int)).errorOf.failed = false :=
  expected_error_of_has_value Int (Expected.val 0) rfl

/-- C6 (the code's actual behaviour, against the claim): `release()` is
`return std::move(value());` (Error.hpp:558-565) — it moves the payload
out but leaves `has_error_ == false`, so a subsequent `value()` finds
`has_value()` still true and returns the moved-from value normally instead
of raising.  Concretely, over `Expected<int>` holding `7` (with `0` for
the moved-from int), `release()` succeeds and the following `value()`
returns `.ok` — it does not raise. -/
theorem expected_release_then_value_cex :
    Expected.release (fun _ => (0 : Int)) (Expected.val 7) = Except.ok (7, Expected.val 0)
  ∧ Expected.value (Expected.val (0 : Int)) = Except.ok 0 :=
  ⟨rfl, rfl⟩

/-- C6 as amended: after a successful move-out via `release()`, the
container still reports `has_value()`, and a subsequent `value()` without
re-assignment returns the moved-from value normally — it does not raise
(Error.hpp:527-536, 558-565). -/
theorem expected_release_keeps_value (T : Type) (mv : T → T) (v : T) :
    Expected.release mv (Expected.val v) = Except.ok (v, Expected.val (mv v))
  ∧ (Expected.val (mv v)).has_value = true
  ∧ (Expected.val (mv v)).value = Except.ok (mv v) :=
  ⟨rfl, rfl, rfl⟩

/-! ## Claim theorems: Error aggregation -/

/-- C4: aggregating a list of Errors yields success iff the list is empty
or every element is success; otherwise the aggregate is failed, and every
constituent's message — in particular every failing one's — occurs as a
substring of the aggregate message (`Error.ofList`, modelled from the
spec and Error.hpp:101-120). -/
theorem error_ofList_aggregation (errors : List Error) :
    ((Error.ofList errors).failed = false ↔ ∀ e ∈ errors, e.failed = false)
  ∧ (∀ e ∈ errors, strContains e.message (Error.ofList errors).message) := by
  constructor
  · rw [error_failed_false_iff]
    show joinMessages (errors.map Error.message) = "" ↔ _
    rw [joinMessages_eq_empty_iff]
    constructor
    · intro h e he
      exact (error_failed_false_iff e).mpr (h e.message (List.mem_map_of_mem _ he))
    · intro h m hm
      obtain ⟨e, he, rfl⟩ := List.mem_map.mp hm
      exact (error_failed_false_iff e).mp (h e he)
  · intro e he
    exact strContains_joinMessages _ _ (List.mem_map_of_mem _ he)

/-! ## Safe name assignment lemmas -/

theorem string_mk_length (l : List Char) : (String.mk l).length = l.length := rfl

theorem withSuffix_length (base : String) (k : Nat) :
    (withSuffix base k).length = base.length + k := by
  have h : (String.mk (List.replicate k '_')).length = k := by
    show (List.replicate k '_').length = k
    simp
  rw [withSuffix, String.length_append, h]

theorem withSuffix_injective (base : String) :
    Function.Injective (withSuffix base) := by
  intro k j h
  have := congrArg String.length h
  rw [withSuffix_length, withSuffix_length] at this
  omega

theorem freeCandidates_ne_nil (base : String) (used : List String) :
    freeCandidates base used ≠ [] := by
  intro h
  have hall : ∀ k ∈ List.range (used.length + 1), withSuffix base k ∈ used := by
    intro k hk
    have := List.filter_eq_nil_iff.mp h k hk
    simpa using this
  have hnd : ((List.range (used.length + 1)).map (withSuffix base)).Nodup :=
    (List.nodup_range _).map (withSuffix_injective base)
  have hsub : (List.range (used.length + 1)).map (withSuffix base) ⊆ used := by
    intro s hs
    obtain ⟨k, hk, rfl⟩ := List.mem_map.mp hs
    exact hall k hk
  have hle := (hnd.subperm hsub).length_le
  simp at hle

theorem nextFree_not_mem (base : String) (used : List String) :
    nextFree base used ∉ used := by
  obtain ⟨k, ks, hk⟩ : ∃ k ks, freeCandidates base used = k :: ks := by
    cases h : freeCandidates base used with
    | nil => exact absurd h (freeCandidates_ne_nil base used)
    | cons k ks => exact ⟨k, ks, rfl⟩
  have hmem : k ∈ freeCandidates base used := by
    rw [hk]; exact List.mem_cons_self _ _
  have hfil := List.of_mem_filter hmem
  rw [nextFree, hk]
  simp only [List.headD_cons]
  intro hmem'
  simp [hmem'] at hfil

theorem assignLoop_fst : ∀ (vs : List Info) (used : List String),
    (assignLoop vs used).map Prod.fst = vs.map Info.id := by
  intro vs
  induction vs with
  | nil => intro used; rfl
  | cons t ts ih => intro used; simp [assignLoop, ih]

theorem assignLoop_snd_not_mem : ∀ (vs : List Info) (used : List String) (s : String),
    s ∈ (assignLoop vs used).map Prod.snd → s ∉ used := by
  intro vs
  induction vs with
  | nil => intro used s hs; simp [assignLoop] at hs
  | cons t ts ih =>
      intro used s hs
      simp only [assignLoop, List.map_cons, List.mem_cons] at hs
      rcases hs with hs | hs
      · subst hs; exact nextFree_not_mem t.name used
      · intro hmem
        exact ih _ s hs (List.mem_cons_of_mem _ hmem)

theorem assignLoop_snd_nodup : ∀ (vs : List Info) (used : List String),
    ((assignLoop vs used).map Prod.snd).Nodup := by
  intro vs
  induction vs with
  | nil => intro used; simp [assignLoop]
  | cons t ts ih =>
      intro used
      simp only [assignLoop, List.map_cons]
      refine List.nodup_cons.mpr ⟨?_, ih _⟩
      intro hmem
      exact assignLoop_snd_not_mem ts _ _ hmem (List.mem_cons_self _ _)

theorem findName_mem : ∀ (l : List (Nat × String)) (j : Nat),
    j ∈ l.map Prod.fst → (j, findName l j) ∈ l := by
  intro l
  induction l with
  | nil => intro j hj; simp at hj
  | cons p rest ih =>
      intro j hj
      obtain ⟨i, nm⟩ := p
      by_cases hij : i = j
      · subst hij
        simp [findName]
      · have : j ∈ rest.map Prod.fst := by
          rcases List.mem_cons.mp hj with h | h
          · exact absurd h.symm hij
          · exact h
        simp only [findName, if_neg hij]
        exact List.mem_cons_of_mem _ (ih j this)

theorem assign_snd_distinct (corpus : Forest) {p q : Nat × String}
    (hp : p ∈ SafeNames.assign corpus) (hq : q ∈ SafeNames.assign corpus)
    (hne : p ≠ q) : p.2 ≠ q.2 := by
  have hnd := assignLoop_snd_nodup (visitForest corpus) []
  have hpw : (SafeNames.assign corpus).Pairwise (fun a b => a.2 ≠ b.2) := by
    rw [SafeNames.assign]
    exact (List.pairwise_map).mp hnd
  exact List.Pairwise.forall (fun a b h => fun e => h e.symm) hpw hp hq hne

/-! ## Claim theorems: safe names -/

/-- C7: the safe-name assignment is injective over the corpus — two
distinct visited symbol identifiers never receive the same name, whatever
their container scopes (`SafeNames.get`, modelled from spec §4.3). -/
theorem safeNames_get_injective (corpus : Forest) (i j : Nat)
    (hi : i ∈ (visitForest corpus).map Info.id)
    (hj : j ∈ (visitForest corpus).map Info.id)
    (hij : i ≠ j) :
    SafeNames.get corpus i ≠ SafeNames.get corpus j := by
  have hfst : (SafeNames.assign corpus).map Prod.fst = (visitForest corpus).map Info.id := by
    rw [SafeNames.assign, assignLoop_fst]
  have hi' : (i, findName (SafeNames.assign corpus) i) ∈ SafeNames.assign corpus :=
    findName_mem _ _ (hfst ▸ hi)
  have hj' : (j, findName (SafeNames.assign corpus) j) ∈ SafeNames.assign corpus :=
    findName_mem _ _ (hfst ▸ hj)
  have hne : (i, findName (SafeNames.assign corpus) i)
      ≠ (j, findName (SafeNames.assign corpus) j) := by
    intro h
    exact hij (congrArg Prod.fst h)
  exact assign_snd_distinct corpus hi' hj' hne

theorem safeNames_get_injective_witness :
    SafeNames.get sampleCorpus 1 ≠ SafeNames.get sampleCorpus 2 :=
  safeNames_get_injective sampleCorpus 1 2 (by decide) (by decide) (by decide)

/-! ## Multi-artifact build lemmas -/

theorem strContains_trans {a b c : String}
    (h1 : strContains a b) (h2 : strContains b c) : strContains a c := by
  obtain ⟨p1, q1, h1⟩ := h1
  obtain ⟨p2, q2, h2⟩ := h2
  exact ⟨p2 ++ p1, q1 ++ q2, by rw [h2, h1]; simp [List.append_assoc]⟩

theorem runTask_reported (env : IOEnv) (outputPath : String) (names : Nat → String)
    (I : Info) (hf : taskFails env I = true) :
    ∃ e, (runTask env outputPath names I).errPart = some e
      ∧ e.failed = true
      ∧ strContains (targetPath outputPath (names I.id)) e.message := by
  rw [taskFails, Bool.or_eq_true] at hf
  by_cases ho : env.openFails I.id = true
  · refine ⟨{ message := "Could not open \"" ++ targetPath outputPath (names I.id)
        ++ "\" because " ++ env.openEcMessage }, ?_, ?_, ?_⟩
    · simp [runTask, ho, TaskResult.errPart]
    · rw [error_failed_true_iff]
      intro h
      have := congrArg String.data h
      simp [String.data_append] at this
    · exact ⟨"Could not open \"".data, ("\" because " ++ env.openEcMessage).data,
        by simp [String.data_append, List.append_assoc]⟩
  · have hw : env.writeFails I.id = true := hf.resolve_left ho
    refine ⟨{ message := "Could not write \"" ++ targetPath outputPath (names I.id)
        ++ "\" because " ++ env.writeEcMessage }, ?_, ?_, ?_⟩
    · simp [runTask, ho, hw, TaskResult.errPart]
    · rw [error_failed_true_iff]
      intro h
      have := congrArg String.data h
      simp [String.data_append] at this
    · exact ⟨"Could not write \"".data, ("\" because " ++ env.writeEcMessage).data,
        by simp [String.data_append, List.append_assoc]⟩

theorem runTask_fails_wrotePart (env : IOEnv) (outputPath : String)
    (names : Nat → String) (I : Info) (hf : taskFails env I = true) :
    (runTask env outputPath names I).wrotePart = none := by
  rw [taskFails, Bool.or_eq_true] at hf
  by_cases ho : env.openFails I.id = true
  · simp [runTask, ho, TaskResult.wrotePart]
  · simp [runTask, ho, hf.resolve_left ho, TaskResult.wrotePart]

theorem runTask_ok (env : IOEnv) (outputPath : String) (names : Nat → String)
    (I : Info) (hf : taskFails env I = false) :
    runTask env outputPath names I = .wrote (targetPath outputPath (names I.id)) := by
  rw [taskFails, Bool.or_eq_false_iff] at hf
  simp [runTask, hf.1, hf.2]

theorem filterMap_errPart_nil_iff (env : IOEnv) (outputPath : String)
    (names : Nat → String) : ∀ l : List Info,
    ((l.map (runTask env outputPath names)).filterMap TaskResult.errPart = []
      ↔ l.filter (taskFails env) = []) := by
  intro l
  induction l with
  | nil => simp
  | cons I l ih =>
      cases hf : taskFails env I with
      | false =>
          rw [List.map_cons, List.filterMap_cons, runTask_ok env outputPath names I hf]
          simpa [TaskResult.errPart, List.filter_cons, hf] using ih
      | true =>
          obtain ⟨e, he, -, -⟩ := runTask_reported env outputPath names I hf
          rw [List.map_cons, List.filterMap_cons, he]
          simp [List.filter_cons, hf]

theorem mem_errors_failed (env : IOEnv) (outputPath : String)
    (names : Nat → String) : ∀ (l : List Info) (e : Error),
    e ∈ (l.map (runTask env outputPath names)).filterMap TaskResult.errPart →
    e.failed = true := by
  intro l e he
  obtain ⟨r, hr, hre⟩ := List.mem_filterMap.mp he
  obtain ⟨I, hI, rfl⟩ := List.mem_map.mp hr
  cases hf : taskFails env I with
  | false =>
      rw [runTask_ok env outputPath names I hf] at hre
      simp [TaskResult.errPart] at hre
  | true =>
      obtain ⟨e', he', hfail, -⟩ := runTask_reported env outputPath names I hf
      rw [he'] at hre
      cases hre
      exact hfail

theorem failing_task_error_mem (env : IOEnv) (outputPath : String)
    (names : Nat → String) : ∀ (l : List Info) (I : Info),
    I ∈ l → taskFails env I = true →
    ∃ e ∈ (l.map (runTask env outputPath names)).filterMap TaskResult.errPart,
      strContains (targetPath outputPath (names I.id)) e.message := by
  intro l I hI hf
  obtain ⟨e, he, -, hcon⟩ := runTask_reported env outputPath names I hf
  refine ⟨e, List.mem_filterMap.mpr ⟨runTask env outputPath names I, List.mem_map_of_mem _ hI, he⟩, hcon⟩

theorem filterMap_wrotePart_eq (env : IOEnv) (outputPath : String)
    (names : Nat → String) : ∀ l : List Info,
    (l.map (runTask env outputPath names)).filterMap TaskResult.wrotePart
      = (l.filter (fun I => !taskFails env I)).map
          (fun I => targetPath outputPath (names I.id)) := by
  intro l
  induction l with
  | nil => simp
  | cons I l ih =>
      cases hf : taskFails env I with
      | false =>
          rw [List.map_cons, List.filterMap_cons, runTask_ok env outputPath names I hf]
          simp [TaskResult.wrotePart, List.filter_cons, hf, ih]
      | true =>
          rw [List.map_cons, List.filterMap_cons,
            runTask_fails_wrotePart env outputPath names I hf]
          simp [List.filter_cons, hf, ih]

theorem length_filter_not (p : α → Bool) (l : List α) :
    (l.filter (fun a => !p a)).length = l.length - (l.filter p).length := by
  induction l with
  | nil => rfl
  | cons a l ih =>
      have hle := List.length_filter_le p l
      cases h : p a
      · simp [List.filter_cons, h, ih]
        omega
      · simp [List.filter_cons, h, ih]

/-! ## Claim theorems: multi-artifact build -/

/-- C1: the multi-artifact build schedules one task per visited symbol and
always returns normally with an `Error` value and the artifacts the
non-failing tasks wrote — a failing task never stops the others.  The
result is success iff no symbol's open or write step failed; the written
artifacts are exactly the non-failing symbols' target paths (so `K − M` of
`K` symbols when `M` fail); and the aggregate message references every
failing symbol's target path as a substring
(`MultiFileBuilder.build`; BitcodeGenerator.cpp:41-83; spec-modelled task
group per §4.4). -/
theorem multiFileBuilder_build_spec (env : IOEnv) (outputPath : String) (corpus : Forest) :
    ((MultiFileBuilder.build env outputPath corpus).1.failed = false
      ↔ (visitForest corpus).filter (taskFails env) = [])
  ∧ (MultiFileBuilder.build env outputPath corpus).2
      = ((visitForest corpus).filter (fun I => !taskFails env I)).map
          (fun I => targetPath outputPath (SafeNames.get corpus I.id))
  ∧ (MultiFileBuilder.build env outputPath corpus).2.length
      = (visitForest corpus).length
        - ((visitForest corpus).filter (taskFails env)).length
  ∧ (∀ I ∈ visitForest corpus, taskFails env I = true →
      strContains (targetPath outputPath (SafeNames.get corpus I.id))
        (MultiFileBuilder.build env outputPath corpus).1.message) := by
  refine ⟨?_, ?_, ?_, ?_⟩
  · show (if _ then Error.ofList _ else Error.success).failed = false ↔ _
    rw [← filterMap_errPart_nil_iff env outputPath (SafeNames.get corpus)]
    cases hnil : (((visitForest corpus).map
        (runTask env outputPath (SafeNames.get corpus))).filterMap TaskResult.errPart) with
    | nil =>
        have he : "".isEmpty = true := rfl
        simp [Error.success, Error.failed, he]
    | cons e es =>
        have hfail : e.failed = true :=
          mem_errors_failed env outputPath (SafeNames.get corpus) (visitForest corpus) e
            (hnil ▸ List.mem_cons_self _ _)
        have : (Error.ofList (e :: es)).failed = true := by
          rw [error_failed_true_iff]
          show joinMessages ((e :: es).map Error.message) ≠ ""
          rw [Ne, joinMessages_eq_empty_iff]
          intro hall
          have := hall e.message (List.mem_map_of_mem _ (List.mem_cons_self _ _))
          exact (error_failed_true_iff e).mp hfail this
        simp [this]
  · show (((visitForest corpus).map _).filterMap TaskResult.wrotePart) = _
    exact filterMap_wrotePart_eq env outputPath (SafeNames.get corpus) (visitForest corpus)
  · show (((visitForest corpus).map _).filterMap TaskResult.wrotePart).length = _
    rw [filterMap_wrotePart_eq env outputPath (SafeNames.get corpus) (visitForest corpus)]
    rw [List.length_map]
    exact length_filter_not _ _
  · intro I hI hf
    obtain ⟨e, he, hcon⟩ :=
      failing_task_error_mem env outputPath (SafeNames.get corpus) (visitForest corpus) I hI hf
    have hne : ¬(((visitForest corpus).map
        (runTask env outputPath (SafeNames.get corpus))).filterMap TaskResult.errPart).isEmpty := by
      cases hnil : (((visitForest corpus).map
          (runTask env outputPath (SafeNames.get corpus))).filterMap TaskResult.errPart) with
      | nil => rw [hnil] at he; simp at he
      | cons a as => simp
    show strContains _ (if _ then Error.ofList _ else Error.success).message
    rw [if_pos (by simpa using hne)]
    exact strContains_trans hcon
      (strContains_joinMessages _ _ (List.mem_map_of_mem _ he))

/-! ## Single-stream build lemmas -/

theorem foldl_write_bad (env : StreamEnv) : ∀ (l : List Info) (s : OStream),
    s.bad = true → l.foldl (fun s I => s.write env I.id) s = s := by
  intro l
  induction l with
  | nil => intro s _; rfl
  | cons I l ih =>
      intro s hs
      show l.foldl _ (s.write env I.id) = s
      rw [OStream.write, if_pos hs]
      exact ih s hs

/-! ## Claim theorems: single-stream build -/

/-- C3 (the code's actual behaviour, against the claim): over a two-symbol
corpus whose first visited symbol's write fails, `buildOne` returns
`Error::success()` — not a non-empty Error — and still processes both
symbols; the stream does end up with zero complete encodings
(`SingleFileBuilder::build`, BitcodeGenerator.cpp:102-117: `operator()`
checks nothing and `build()` returns success unconditionally). -/
theorem singleFileBuilder_build_cex :
    (SingleFileBuilder.build cexStreamEnv cexStream cexCorpus).1.failed = false
  ∧ (SingleFileBuilder.build cexStreamEnv cexStream cexCorpus).2.2.length = 2
  ∧ (SingleFileBuilder.build cexStreamEnv cexStream cexCorpus).2.1.chunks = [] :=
  ⟨rfl, rfl, rfl⟩

/-- C3 as amended: the single-stream build returns success unconditionally
and processes every visited symbol even after a failure; when the first
visited symbol's write fails on a good stream, the stream keeps its
failure state and no complete symbol encoding is ever appended
(`SingleFileBuilder.build`; BitcodeGenerator.cpp:102-117). -/
theorem singleFileBuilder_build_amended (env : StreamEnv) (os : OStream) (corpus : Forest) :
    (SingleFileBuilder.build env os corpus).1.failed = false
  ∧ (SingleFileBuilder.build env os corpus).2.2 = visitForest corpus
  ∧ (∀ t rest, visitForest corpus = t :: rest → os.bad = false →
      env.writeFails t.id = true →
      (SingleFileBuilder.build env os corpus).2.1.chunks = os.chunks) := by
  refine ⟨rfl, rfl, ?_⟩
  intro t rest hvis hbad hfail
  show ((visitForest corpus).foldl (fun s I => s.write env I.id) os).chunks = os.chunks
  rw [hvis]
  show (rest.foldl (fun s I => s.write env I.id) (os.write env t.id)).chunks = os.chunks
  have hw : os.write env t.id = { os with bad := true } := by
    rw [OStream.write, if_neg (by simp [hbad]), if_pos hfail]
  rw [hw, foldl_write_bad env rest _ rfl]

/-! ## Traversal lemmas -/

theorem visitInfo_eq (t : Info) : visitInfo t = t :: visitForest t.members := by
  cases t
  rfl

theorem reachable_mem_visit {ts : Forest} {x : Info} (h : Reachable ts x) :
    x ∈ visitForest ts := by
  induction h with
  | head t ts => simp [visitForest, visitInfo_eq]
  | tail t x ts _ ih => simp [visitForest, ih]
  | child t x ts _ ih => simp [visitForest, visitInfo_eq, ih]

mutual
theorem mem_visitInfo_cases : ∀ (t x : Info), x ∈ visitInfo t → x = t ∨ Reachable t.members x
  | .mk i nm ms, x, h => by
      rw [visitInfo] at h
      rcases List.mem_cons.mp h with h | h
      · exact Or.inl h
      · exact Or.inr (mem_visitForest_reachable ms x h)
theorem mem_visitForest_reachable : ∀ (ts : Forest) (x : Info), x ∈ visitForest ts → Reachable ts x
  | .nil, x, h => by rw [visitForest] at h; exact absurd h (List.not_mem_nil x)
  | .cons t ts, x, h => by
      rw [visitForest] at h
      rcases List.mem_append.mp h with h | h
      · rcases mem_visitInfo_cases t x h with h | h
        · exact h ▸ Reachable.head t ts
        · exact Reachable.child t x ts h
      · exact Reachable.tail t x ts (mem_visitForest_reachable ts x h)
end

/-! ## Claim theorems: traversal -/

/-- C8: the traversal from the corpus root's member list visits exactly
the reachable symbols — membership in the visit order coincides with
reachability — and, for a well-formed corpus (pairwise-distinct symbol
identifiers, the tree's unique-ownership invariant), every reachable
symbol's identifier occurs exactly once in the visit order.  Termination
is the totality of the structurally recursive `visitForest`
(modelled from spec §4.4; driven from BitcodeGenerator.cpp:44-45, 52-83,
105, 109-117). -/
theorem traversal_visits_each_reachable_once (corpus : Forest) :
    (∀ x : Info, Reachable corpus x ↔ x ∈ visitForest corpus)
  ∧ (((visitForest corpus).map Info.id).Nodup →
      ∀ x : Info, Reachable corpus x →
        ((visitForest corpus).map Info.id).count x.id = 1) := by
  constructor
  · intro x
    exact ⟨reachable_mem_visit, mem_visitForest_reachable corpus x⟩
  · intro hnd x hx
    exact List.count_eq_one_of_mem hnd
      (List.mem_map_of_mem Info.id (reachable_mem_visit hx))

end Mrdox
